import Mathlib

/-!
Verification development for the `bun-plugin-html` asset pipeline.

This file gives a shallow embedding of the asset-graph identity, naming,
inlining, write-once persistence and diagnostics logic of `src/index.ts`,
together with theorems settling the specification claims about it.

External collaborators (the `node:path` module, the SASS compiler, the
content hasher, the file system) are modelled at their interface boundary:
`node:path` (posix flavour) is reimplemented as executable Lean functions,
the compilers/hashers are passed in as function parameters, and the file
system is an explicit `String → Bool` existence predicate plus an explicit
store of written files.
-/

namespace BunPluginHtml

/-! ### JS string primitives -/

/-- JS `String.prototype.replace` with a plain-string pattern: replaces the
first occurrence of `pat` only. -/
def replaceFirstL (pat repl : List Char) : List Char → List Char
  | [] => []
  | c :: cs =>
    if pat.isPrefixOf (c :: cs) then repl ++ ((c :: cs).drop pat.length)
    else c :: replaceFirstL pat repl cs

/-- JS `String.prototype.replaceAll` with a plain-string pattern (also the
behaviour of a `/g` regex whose pattern is a literal): replaces every
non-overlapping occurrence, scanning left to right.  Structurally recursive
on a fuel bounded by the content length (each step consumes at least one
character for non-empty patterns). -/
def replaceAllFuel (pat repl : List Char) : Nat → List Char → List Char
  | 0, cs => cs
  | _ + 1, [] => []
  | fuel + 1, c :: cs =>
    if pat.isPrefixOf (c :: cs) then repl ++ replaceAllFuel pat repl fuel ((c :: cs).drop pat.length)
    else c :: replaceAllFuel pat repl fuel cs

/-- `replaceAllFuel` at its intended fuel. -/
def replaceAllL (pat repl cs : List Char) : List Char :=
  replaceAllFuel pat repl cs.length cs

/-- `startsWith`, via list prefixing (kernel-computable). -/
def jsStartsWith (s pre : String) : Bool :=
  pre.toList.isPrefixOf s.toList

/-- `endsWith`, via list suffixing (kernel-computable). -/
def jsEndsWith (s suf : String) : Bool :=
  suf.toList.isSuffixOf s.toList

/-- `toLowerCase`, via per-character lowering (kernel-computable). -/
def strToLower (s : String) : String :=
  (s.toList.map Char.toLower).asString

/-- Split on every occurrence of a (non-empty) separator; fuel-bounded
structural recursion. -/
def splitOnFuel (sep : List Char) : Nat → List Char → List Char → List (List Char)
  | 0, cs, acc => [acc.reverse ++ cs]
  | _ + 1, [], acc => [acc.reverse]
  | fuel + 1, c :: cs, acc =>
    if sep.isPrefixOf (c :: cs) then
      acc.reverse :: splitOnFuel sep fuel ((c :: cs).drop sep.length) []
    else splitOnFuel sep fuel cs (c :: acc)

/-- `String.split` on a separator string (kernel-computable; the separator
is never empty in this development). -/
def strSplitOn (s sep : String) : List String :=
  if sep = "" then [s]
  else (splitOnFuel sep.toList (s.toList.length + 1) s.toList []).map List.asString

/-- Substring test, modelling JS `indexOf(sub) > -1`. -/
def containsL (pat : List Char) : List Char → Bool
  | [] => pat.isEmpty
  | c :: cs => pat.isPrefixOf (c :: cs) || containsL pat cs

/-- JS `name.indexOf(sub) > -1`. -/
def jsIncludes (s sub : String) : Bool :=
  containsL sub.toList s.toList

/-- JS first-occurrence string replace, on `String`. -/
def strReplaceFirst (s pat repl : String) : String :=
  (replaceFirstL pat.toList repl.toList s.toList).asString

/-- JS `replaceAll`, on `String`. -/
def strReplaceAll (s pat repl : String) : String :=
  (replaceAllL pat.toList repl.toList s.toList).asString

/-! ### The `node:path` module (posix flavour), modelled at its interface

These functions model the external `node:path` collaborator used by
`src/index.ts`: `join`, `normalize`, `resolve`, `parse`, `dirname` and
`relative`.  Paths are plain strings of `/`-separated segments; the
less-used corner behaviours of node (trailing-slash preservation,
windows roots) are not modelled. -/

/-- Segment-level normalization: drops empty and `.` segments and resolves
`..` against the accumulated stack (absolute paths drop leading `..`,
relative paths keep them). -/
def normAux (isAbs : Bool) : List String → List String → List String
  | acc, [] => acc.reverse
  | acc, seg :: rest =>
    if seg = "" ∨ seg = "." then normAux isAbs acc rest
    else if seg = ".." then
      match acc with
      | top :: acc' =>
        if top = ".." then normAux isAbs (seg :: top :: acc') rest
        else normAux isAbs acc' rest
      | [] => if isAbs then normAux isAbs [] rest else normAux isAbs [seg] rest
    else normAux isAbs (seg :: acc) rest

/-- `path.normalize` (posix). -/
def pathNormalize (p : String) : String :=
  let isAbs := jsStartsWith p "/"
  let segs := normAux isAbs [] (strSplitOn p "/")
  let core := String.intercalate "/" segs
  if isAbs then "/" ++ core
  else if core = "" then "." else core

/-- `path.join` (posix): concatenates the non-empty parts with `/` and
normalizes; an all-empty join gives `"."`. -/
def pathJoin (parts : List String) : String :=
  let joined := String.intercalate "/" (parts.filter (fun s => s ≠ ""))
  if joined = "" then "." else pathNormalize joined

/-- `path.resolve` (posix) with an explicit current working directory:
processes the parts left to right, restarting at any absolute part, and
normalizes the result. -/
def pathResolve (cwd : String) (parts : List String) : String :=
  pathNormalize (parts.foldl
    (fun acc p => if jsStartsWith p "/" then p else if acc = "" then p else acc ++ "/" ++ p)
    cwd)

/-- The result of `path.parse`. -/
structure ParsedPath where
  root : String
  dir : String
  base : String
  name : String
  ext : String
deriving DecidableEq, Repr

/-- `path.parse` (posix). -/
def pathParse (p : String) : ParsedPath :=
  let root := if jsStartsWith p "/" then "/" else ""
  let chars := p.toList
  let trimmed := (chars.reverse.dropWhile (fun c => c = '/')).reverse
  let trimmed := if trimmed = [] then chars else trimmed
  let revc := trimmed.reverse
  let baseRev := revc.takeWhile (fun c => c ≠ '/')
  let base := baseRev.reverse.asString
  let rest := revc.drop baseRev.length
  let dirChars := (rest.drop 1).reverse
  let dir :=
    if rest = [] then ""
    else if dirChars = [] then (if root = "/" then "/" else "")
    else dirChars.asString
  let bl := base.toList
  let afterDotRev := bl.reverse.takeWhile (fun c => c ≠ '.')
  let extLen := afterDotRev.length + 1
  if afterDotRev.length = bl.length ∨ extLen = bl.length then
    { root := root, dir := dir, base := base, name := base, ext := "" }
  else
    { root := root, dir := dir, base := base,
      name := (bl.take (bl.length - extLen)).asString,
      ext := (bl.drop (bl.length - extLen)).asString }

/-- `path.dirname` (posix). -/
def pathDirname (p : String) : String :=
  let d := (pathParse p).dir
  if d = "" then "." else d

/-- Splits an (absolute) path into its non-empty segments. -/
def pathSegs (p : String) : List String :=
  (strSplitOn p "/").filter (fun s => s ≠ "")

/-- Drops the longest common segment prefix of two segment lists. -/
def dropCommonSegs : List String → List String → List String × List String
  | a :: as, b :: bs =>
    if a = b then dropCommonSegs as bs else (a :: as, b :: bs)
  | a, b => (a, b)

/-- `path.relative` (posix) with an explicit current working directory. -/
def pathRelative (cwd from_ to_ : String) : String :=
  let fa := pathSegs (pathResolve cwd [from_])
  let ta := pathSegs (pathResolve cwd [to_])
  let (fr, tr) := dropCommonSegs fa ta
  String.intercalate "/" (List.replicate fr.length ".." ++ tr)

/-! ### Association lists modelling JS plain objects

JS objects keyed by strings preserve (non-numeric) key insertion order;
updating an existing key keeps its position, a new key is appended. -/

/-- Lookup in a JS-object model (`obj[k]`). -/
def alookup (k : String) : List (String × α) → Option α
  | [] => none
  | (k', v) :: rest => if k' = k then some v else alookup k rest

/-- Update/insert in a JS-object model (`obj[k] = v`). -/
def aset (k : String) (v : α) : List (String × α) → List (String × α)
  | [] => [(k, v)]
  | (k', v') :: rest => if k' = k then (k, v) :: rest else (k', v') :: aset k v rest

/-! ### The `NamedAs` identity fold (src/index.ts, `keepNamedAs`) -/

/-- One recorded identity fold: the final relative path `as` and the file
handle `fd` (a `BunFile` is identified by the path it was opened on). -/
structure NamedEntry where
  as : String
  fd : String
deriving DecidableEq, Repr

/-- `NamedAs`: base name → (source directory → recorded fold). -/
abbrev NamedAs := List (String × List (String × NamedEntry))

/-- `keepNamedAs(parsedOriginPath, parsedNewPath, resolved, namedAs)` from
src/index.ts:651-672.  Returns the JS function's return value
(`names[nameDir]` after the possible record) together with the updated
`namedAs` object. -/
def keepNamedAs (parsedOriginPath parsedNewPath : ParsedPath) (resolved : String)
    (namedAs : NamedAs) : Option NamedEntry × NamedAs :=
  let base := parsedOriginPath.base
  let names := (alookup base namedAs).getD []
  let nameDir := pathJoin [parsedOriginPath.root, parsedOriginPath.dir]
  match alookup nameDir names with
  | some e => (some e, namedAs)
  | none =>
    let as := pathJoin [parsedNewPath.root, parsedNewPath.dir, parsedNewPath.base]
    if as ≠ pathJoin [nameDir, base] then
      let entry : NamedEntry := { as := as, fd := resolved }
      (some entry, aset base (aset nameDir entry names) namedAs)
    else
      (none, namedAs)

/-- The file handle `renameFile` ends up with: `named?.fd || Bun.file(resolved)`
(src/index.ts:724), identified by its path. -/
def finalHandle (named : Option NamedEntry) (resolved : String) : String :=
  match named with
  | some e => e.fd
  | none => resolved

/-! ### Naming-template selection -/

/-- `BuildArtifact['kind']` of Bun. -/
inductive Kind where
  | entryPoint
  | chunk
  | asset
  | sourcemap
  | bytecode
deriving DecidableEq, Repr

/-- `Bun.build`'s `naming` configuration: absent, a single template string,
or per-kind templates. -/
inductive NamingCfg where
  | undef
  | str (s : String)
  | obj (entry chunk asset : Option String)
deriving DecidableEq, Repr

/-- The `naming` object `forJsFiles` passes to the per-entrypoint `Bun.build`
invocation (src/index.ts:304-315), as `(entry, chunk, asset)`. -/
def forJsFilesNaming : NamingCfg → Option String × Option String × Option String
  | .str s => (some s, some s, some s)
  | .obj _ chunk asset => (chunk, chunk, asset)
  | .undef => (some "./[name]-[hash].[ext]", none, none)

/-- `buildNamingType` of `renameFile` (src/index.ts:683-685). -/
def buildNamingType : Kind → String
  | .entryPoint => "entry"
  | .chunk => "chunk"
  | _ => "asset"

/-- The regex `/\.(c|s[ac])ss$/i` used on extensions. -/
def isCssLikeExt (ext : String) : Bool :=
  let e := strToLower ext
  jsEndsWith e ".css" || jsEndsWith e ".scss" || jsEndsWith e ".sass"

/-- The regex `/s[ac]ss$/i` used on extensions without their dot. -/
def isSassLikeExt (ext : String) : Bool :=
  let e := strToLower ext
  jsEndsWith e "sass" || jsEndsWith e "scss"

/-- The naming-template selection of `renameFile` (src/index.ts:691-698):
a `naming.css` option wins for style extensions, then a single-string
global template, then the per-kind template for `buildNamingType kind`.
A JS-falsy (empty) `naming.css` does not trigger the override. -/
def selectNaming (cssOverride : Option String) (cfg : NamingCfg) (ext : String)
    (kind : Kind) : Option String :=
  if isCssLikeExt ext ∧ (cssOverride.getD "") ≠ "" then cssOverride
  else
    match cfg with
    | .str s => some s
    | .obj e c a =>
      if buildNamingType kind = "entry" then e
      else if buildNamingType kind = "chunk" then c
      else a
    | .undef => none

/-- `renameFile` (src/index.ts:674-725).  `fileName` is `file.name`; the
result is the name of the returned `BunFile` (or `none` when the input had
no name) together with the updated `NamedAs` state. -/
def renameFile (cwd : String) (cssOverride : Option String) (cfgNaming : NamingCfg)
    (fileName : Option String) (hash : String) (kind : Kind) (sharedPath : String)
    (namedAs : NamedAs) : Option String × NamedAs :=
  if kind = .sourcemap ∨ kind = .bytecode then (fileName, namedAs)
  else
    match fileName with
    | none => (none, namedAs)
    | some nm =>
      let extension := (pathParse nm).ext
      match selectNaming cssOverride cfgNaming extension kind with
      | none => (some nm, namedAs)
      | some naming =>
        if naming = "" then (some nm, namedAs)
        else
          let filePath := strReplaceFirst (pathNormalize nm) sharedPath "."
          let parsedPath := pathParse filePath
          let dir := parsedPath.dir
          let ext0 := strReplaceFirst parsedPath.ext "." ""
          let ext := if isSassLikeExt ext0 then "css" else ext0
          let name := parsedPath.name
          let newPath :=
            strReplaceAll (strReplaceAll (strReplaceAll (strReplaceAll naming
              "[dir]" dir) "[hash]" hash) "[ext]" ext) "[name]" name
          let resolved := pathResolve cwd [sharedPath, newPath]
          let newPathParsed := pathParse newPath
          let (named, namedAs') := keepNamedAs parsedPath newPathParsed resolved namedAs
          (some (finalHandle named resolved), namedAs')

/-! ### The clue regex of `save`

`src/index.ts:752-755` builds, for every recorded origin base name, the
regex

  `(['"])([^'"\n]*\/)?NAME([?#][^'"]*)?\1|\(([^\)\n'"]+\/)?NAME([?#][^'"\)]*)?\)`

(the source escapes only the dots of NAME, so NAME matches literally) and
collects all `/g` matches of it in the content.  The matcher below
implements exactly this pattern with JS backtracking semantics: at each
position the quoted alternative is tried before the parenthesized one,
greedy groups try the longest extent first, and an optional group is tried
present before absent. -/

/-- Maximal run length of characters satisfying `p`. -/
def runLen (p : Char → Bool) : List Char → Nat
  | [] => 0
  | c :: cs => if p c then runLen p cs + 1 else 0

/-- Greedy backtracking: try `f` at `m`, `m - 1`, ..., `0`, first hit wins. -/
def greedyDown (f : Nat → Option Nat) : Nat → Option Nat
  | 0 => f 0
  | m + 1 =>
    match f (m + 1) with
    | some r => some r
    | none => greedyDown f m

/-- After the opening quote and the optional directory group of the quoted
alternative: match `NAME`, the optional `[?#][^'"]*` tail, then the
back-referenced quote `q`.  Returns the number of characters consumed. -/
def matchTailA (n : List Char) (q : Char) (cs : List Char) : Option Nat :=
  if n.isPrefixOf cs then
    let rest := cs.drop n.length
    let noTail : Option Nat :=
      match rest with
      | c :: _ => if c = q then some (n.length + 1) else none
      | [] => none
    match rest with
    | t :: rest' =>
      if t = '?' ∨ t = '#' then
        match greedyDown (fun k =>
          match rest'[k]? with
          | some c => if c = q then some (n.length + 1 + k + 1) else none
          | none => none) (runLen (fun c => !(c = '\'' || c = '"')) rest') with
        | some r => some r
        | none => noTail
      else noTail
    | [] => none
  else none

/-- The quoted alternative `(['"])([^'"\n]*\/)?NAME([?#][^'"]*)?\1`. -/
def branchA (n : List Char) (cs : List Char) : Option Nat :=
  match cs with
  | [] => none
  | q :: rest =>
    if q = '\'' ∨ q = '"' then
      match greedyDown (fun k =>
        match rest[k]? with
        | some c =>
          if c = '/' then (matchTailA n q (rest.drop (k + 1))).map (fun t => 1 + k + 1 + t)
          else none
        | none => none) (runLen (fun c => !(c = '\'' || c = '"' || c = '\n')) rest) with
      | some len => some len
      | none => (matchTailA n q rest).map (fun t => 1 + t)
    else none

/-- After `(` and the optional directory group of the parenthesized
alternative: match `NAME`, the optional `[?#][^'"\)]*` tail, then `)`. -/
def matchTailB (n : List Char) (cs : List Char) : Option Nat :=
  if n.isPrefixOf cs then
    let rest := cs.drop n.length
    let noTail : Option Nat :=
      match rest with
      | c :: _ => if c = ')' then some (n.length + 1) else none
      | [] => none
    match rest with
    | t :: rest' =>
      if t = '?' ∨ t = '#' then
        match greedyDown (fun k =>
          match rest'[k]? with
          | some c => if c = ')' then some (n.length + 1 + k + 1) else none
          | none => none) (runLen (fun c => !(c = '\'' || c = '"' || c = ')')) rest') with
        | some r => some r
        | none => noTail
      else noTail
    | [] => none
  else none

/-- The parenthesized alternative `\(([^\)\n'"]+\/)?NAME([?#][^'"\)]*)?\)`;
its directory group needs at least one character before the slash. -/
def branchB (n : List Char) (cs : List Char) : Option Nat :=
  match cs with
  | [] => none
  | c0 :: rest =>
    if c0 = '(' then
      match greedyDown (fun k =>
        if k = 0 then none
        else
          match rest[k]? with
          | some c =>
            if c = '/' then (matchTailB n (rest.drop (k + 1))).map (fun t => 1 + k + 1 + t)
            else none
          | none => none) (runLen (fun c => !(c = ')' || c = '\n' || c = '\'' || c = '"')) rest) with
      | some len => some len
      | none => (matchTailB n rest).map (fun t => 1 + t)
    else none

/-- Left-to-right `/g` scan: on a match, continue after it; otherwise
advance one character.  `fuel` is initialized to the content length (every
step consumes at least one character, matches are never empty). -/
def clueScanAux (n : List Char) : Nat → List Char → List (List Char)
  | 0, _ => []
  | _ + 1, [] => []
  | fuel + 1, c :: cs =>
    match branchA n (c :: cs) with
    | some len => (c :: cs).take len :: clueScanAux n fuel ((c :: cs).drop (max len 1))
    | none =>
      match branchB n (c :: cs) with
      | some len => (c :: cs).take len :: clueScanAux n fuel ((c :: cs).drop (max len 1))
      | none => clueScanAux n fuel cs

/-- `content.match(clue)` (src/index.ts:756): all matched substrings. -/
def clueMatches (originName content : String) : List String :=
  (clueScanAux originName.toList content.toList.length content.toList).map List.asString

/-! ### `save`: the write-once output writer with the literal-fold rewrite -/

/-- Modelled from the spec: `isURL` from `src/utils.ts` (the utils module of
this repository is not included under `src/`).  Per the spec, URL
references are scheme-qualified and are "never treated as build inputs";
a reference counts as a URL iff it carries a URL scheme separator. -/
def isURL (s : String) : Bool :=
  (strSplitOn s "://").length > 1 || jsStartsWith s "data:"

/-- The `keepOriginalPaths` option: `boolean | string[]`. -/
inductive KeepVal where
  | bool (b : Bool)
  | list (l : List String)
deriving DecidableEq, Repr

/-- A value written through `Bun.write`: either text or an opaque blob
(identified by the path it was opened on). -/
inductive BodyV where
  | str (s : String)
  | blob (name : String)
deriving DecidableEq, Repr

/-- JS truthiness of a `save` body / `details.content` value. -/
def truthy : BodyV → Bool
  | .str s => s ≠ ""
  | .blob _ => true

/-- `pathStrCtx.substring(1, pathStrCtx.length - 1)`. -/
def ctxInner (ctx : String) : String := (ctx.drop 1).dropRight 1

/-- `pathStrCtx.substring(0, 1)`. -/
def ctxHead (ctx : String) : String := ctx.take 1

/-- `pathStrCtx.substring(pathStrCtx.length - 1)`. -/
def ctxLast (ctx : String) : String := ctx.takeRight 1

/-- Index of the first `?` or `#` (`pathString.match(/[?#]/)`). -/
def queryIdx (s : String) : Option Nat :=
  s.toList.findIdx? (fun c => c == '?' || c == '#')

/-- The query/hash split of src/index.ts:767-772.  The JS guard
`if (pathExtraTail?.index)` is falsy for index `0`, so a literal starting
with `?`/`#` is not split. -/
def stripQuery (s : String) : String :=
  match queryIdx s with
  | some i => if i = 0 then s else s.take i
  | none => s

/-- The tail removed by `stripQuery` (empty when nothing is split off). -/
def queryTail (s : String) : String :=
  match queryIdx s with
  | some i => if i = 0 then "" else s.drop i
  | none => ""

/-- The exemption test of src/index.ts:773-780: a non-empty exemption list
exempts a literal iff some listed path is a suffix of it. -/
def exemptedBy (arr : List String) (p : String) : Bool :=
  arr.length > 0 && arr.any (fun s => p.length ≥ s.length && jsEndsWith p s)

/-- `pathString.replace(/^\.\//, '')`. -/
def stripDotSlash (s : String) : String :=
  if jsStartsWith s "./" then s.drop 2 else s

/-- The per-match loop body of `save` (src/index.ts:759-796): one matched
literal context `ctx` (quoted or parenthesized) is examined and rewritten
inside `content` using the recorded identity folds for `originName`. -/
def processPathString (cwd : String) (kop : Option KeepVal) (hostDir originName : String)
    (asNewNames : List (String × NamedEntry)) (content ctx : String) : String :=
  let pfx := ctxHead ctx
  let mid0 := ctxInner ctx
  let sfx0 := ctxLast ctx
  if isURL mid0 then content
  else
    let mid := stripQuery mid0
    let sfx := queryTail mid0 ++ sfx0
    let exempt :=
      match kop with
      | some (.list arr) => exemptedBy arr mid
      | _ => false
    if exempt then content
    else
      asNewNames.foldl (fun content dirEntry =>
        let originDir := dirEntry.1
        let originPath := pathJoin [originDir, originName]
        if jsStartsWith mid "/" then
          strReplaceFirst content ctx (pfx ++ ("/" ++ dirEntry.2.as) ++ sfx)
        else if stripDotSlash mid ≠ stripDotSlash originPath then
          let pathStrDir := (pathParse (pathJoin [hostDir, mid])).dir
          if pathStrDir ≠ originDir then content
          else strReplaceFirst content ctx (pfx ++ pathRelative cwd hostDir dirEntry.2.as ++ sfx)
        else
          strReplaceFirst content ctx (pfx ++ dirEntry.2.as ++ sfx)) content

/-- The string-rewriting pipeline of `save` (src/index.ts:743-797): for
every recorded origin base name (in recording order), every matched path
literal in `body` is rewritten to the recorded final path. -/
def transformBody (cwd : String) (kop : Option KeepVal) (namedAs : NamedAs)
    (outdir : Option String) (name : String) (body : String) : String :=
  let hostDir := pathRelative cwd (if outdir.getD "" = "" then "." else outdir.getD "")
    (pathParse name).dir
  (namedAs.map Prod.fst).foldl (fun content originName =>
    match clueMatches originName content with
    | [] => content
    | pathStrings =>
      let asNewNames := (alookup originName namedAs).getD []
      pathStrings.foldl (fun content ctx =>
        processPathString cwd kop hostDir originName asNewNames content ctx) content) body

/-- The write ledger and the store of written files. -/
structure SaveState where
  saved : List String
  store : List (String × BodyV)
deriving DecidableEq

/-- `save` (src/index.ts:732-799): a path already in `_pathSaved` is a
no-op; otherwise the path is recorded and the body — rewritten unless
`keepOriginalPaths` is `true` or the body is not a string — is written. -/
def save (cwd : String) (kop : Option KeepVal) (namedAs : NamedAs) (outdir : Option String)
    (st : SaveState) (name : String) (body : BodyV) : SaveState :=
  if st.saved.contains name then st
  else
    let st' : SaveState := { st with saved := name :: st.saved }
    if kop = some (.bool true) then { st' with store := aset name body st'.store }
    else
      match body with
      | .blob b => { st' with store := aset name (.blob b) st'.store }
      | .str s =>
        { st' with store := aset name (.str (transformBody cwd kop namedAs outdir name s)) st'.store }

/-- A build's sequence of `save` invocations, folded over the state. -/
def runSaves (cwd : String) (kop : Option KeepVal) (namedAs : NamedAs) (outdir : Option String)
    (calls : List (String × BodyV)) (st : SaveState) : SaveState :=
  calls.foldl (fun st c => save cwd kop namedAs outdir st c.1 c.2) st

/-! ### The output-emission loops of `setup` -/

/-- One entry of `newFiles` as the emission loops see it. -/
structure OutEntry where
  name : Option String
  content : BodyV
  kind : Kind
  hash : String
deriving DecidableEq, Repr

/-- The skip decision of the non-entry-point output loop
(src/index.ts:916-919): entries with no name or JS-falsy content are
skipped, as are entries whose target path contains their hash while a file
already exists there. -/
def nonEntrySkip (name : Option String) (content : BodyV) (hash : String)
    (fsExists : String → Bool) : Bool :=
  match name with
  | none => true
  | some n =>
    if truthy content = false then true
    else jsIncludes n hash && fsExists n

/-- The skip decision of the entry-point output loop
(src/index.ts:967-970). -/
def entrySkip (name : Option String) (hash : String) (fsExists : String → Bool) : Bool :=
  match name with
  | none => true
  | some n => jsIncludes n hash && fsExists n

/-- The non-entry-point loop (src/index.ts:913-952): the entries it calls
`save` on, in order. -/
def nonEntryPass (fsExists : String → Bool) (l : List OutEntry) : List OutEntry :=
  (l.filter (fun e => decide (e.kind ≠ Kind.entryPoint))).filter
    (fun e => !nonEntrySkip e.name e.content e.hash fsExists)

/-- The entry-point loop (src/index.ts:954-979): the entries it calls
`save` on, in order. -/
def entryPass (fsExists : String → Bool) (l : List OutEntry) : List OutEntry :=
  (l.filter (fun e => decide (e.kind = Kind.entryPoint))).filter
    (fun e => !entrySkip e.name e.hash fsExists)

/-- The full sequence of `save` calls of one build over `newFiles`: the
non-entry-point loop runs to completion before the entry-point loop. -/
def saveCallSequence (fsExists : String → Bool) (l : List OutEntry) : List OutEntry :=
  nonEntryPass fsExists l ++ entryPass fsExists l

/-! ### Options -/

/-- The `inline` option: `boolean | { css?: boolean; js?: boolean }`. -/
inductive InlineV where
  | bool (b : Bool)
  | obj (css js : Option Bool)
deriving DecidableEq, Repr

/-- `BunPluginHTMLOptions` (src/index.ts:41-93), restricted to the fields
this development uses. -/
structure BunPluginHTMLOptions where
  inline : Option InlineV
  namingCss : Option String
  includeExtensions : Option (List String)
  excludeExtensions : Option (List String)
  excludeSelectors : Option (List String)
  keepOriginalPaths : Option KeepVal
  suppressErrors : Option Bool
deriving DecidableEq

/-- `options?.suppressErrors`. -/
def suppressErrorsOf (o : Option BunPluginHTMLOptions) : Option Bool :=
  o.bind (fun x => x.suppressErrors)

/-- The CSS-inlining test of src/index.ts:583-588:
`options && (options.inline === true || (typeof options.inline === 'object'
&& options.inline?.css === true))`. -/
def cssInlineEnabled (o : Option BunPluginHTMLOptions) : Bool :=
  match o with
  | none => false
  | some opts =>
    match opts.inline with
    | some (.bool b) => b
    | some (.obj css _) => css = some true
    | none => false

/-- The JS-inlining test of src/index.ts:607-612. -/
def jsInlineEnabled (o : Option BunPluginHTMLOptions) : Bool :=
  match o with
  | none => false
  | some opts =>
    match opts.inline with
    | some (.bool b) => b
    | some (.obj _ js) => js = some true
    | none => false

/-! ### The discovered-file graph -/

/-- A markup attribute `{name, value}`. -/
structure Attr where
  name : String
  value : String
deriving DecidableEq, Repr

/-- `FileDetails`: the metadata of one graph entry.  `originalPath` is
`none` for the JS literal `false` (synthesized outputs). -/
structure FileDetails where
  kind : Kind
  attr : Option Attr
  hash : String
  originalPath : Option String
  htmlImporter : String
  content : Option String
deriving DecidableEq, Repr

/-- One entry of the `Map<BunFile, FileDetails>` graph: the handle's path
(`file.name`), its on-disk content (`file.text()` / `file.arrayBuffer()`)
and the metadata. -/
structure GEntry where
  name : Option String
  diskText : String
  details : FileDetails
deriving DecidableEq, Repr

/-! ### `processHtmlFiles`: inlining and asset classification -/

/-- Modelled from the spec: `contentToString` from `src/utils.ts` (the
utils module of this repository is not included under `src/`): converts an
optional in-memory content override to a string; absent content yields the
empty string. -/
def contentToString (c : Option String) : String := c.getD ""

/-- The regex `/\.s[ac]ss$/i` on a dotted extension. -/
def isSassDotExt (ext : String) : Bool :=
  let e := strToLower ext
  jsEndsWith e ".sass" || jsEndsWith e ".scss"

/-- The `</script>` escape of the JS inlining rule
(`content.replaceAll(/(<)(\/script>)/g, '\x5Cx3C$2')`, src/index.ts:625):
every literal `</script>` becomes `\x3C/script>`. -/
def escapeScript (s : String) : String :=
  strReplaceAll s "</script>" "\\x3C/script>"

/-- A deferred markup mutation registered on an element selector.  The
source registers closures over an `HTMLRewriter`; they are represented by
the element operations they perform. -/
inductive RuleAction where
  | replaceOuter (html : String)
  | removeAttr (name : String)
  | setInner (html : String)
deriving DecidableEq, Repr

/-- An attribute-rewrite rule: the source keys rules on
`attributeToSelector(attribute)` (utils, not under `src/`), i.e. on the
referencing attribute; the selector is therefore represented by that
attribute. -/
structure Rule where
  selector : Attr
  actions : List RuleAction
deriving DecidableEq, Repr

/-- The content inlined for a style asset (src/index.ts:592-598):
`details.content`, JS-falsy fallback to the on-disk text, SASS-compiled
when the extension is `.sass`/`.scss`. -/
def inlineCssContent (sassCompile : String → String) (e : GEntry) (ext : String) : String :=
  let c := contentToString e.details.content
  let c := if c = "" then e.diskText else c
  if isSassDotExt ext then sassCompile c else c

/-- The content inlined for a script asset (src/index.ts:618-624): the
on-disk text only when `details.content === undefined`. -/
def inlineJsContent (e : GEntry) : String :=
  match e.details.content with
  | none => e.diskText
  | some c => c

/-- The inner loop body of `processHtmlFiles` (src/index.ts:574-645) for
one graph entry: style and script entries covered by `inline` are removed
from the graph and produce an inlining rule; anything else with an
attribute is reclassified as an `asset` and rehashed from disk. -/
def processFileEntry (o : Option BunPluginHTMLOptions) (buildExtensions : List String)
    (sassCompile : String → String) (hashFn : String → String) (e : GEntry) :
    Option GEntry × Option Rule :=
  match e.details.attr with
  | none => (some e, none)
  | some attr =>
    match e.name with
    | none => (some e, none)
    | some nm =>
      let extension := (pathParse nm).ext
      if isCssLikeExt extension then
        if cssInlineEnabled o then
          let rule : Rule :=
            { selector := attr,
              actions := [.replaceOuter
                ("<style>" ++ inlineCssContent sassCompile e extension ++ "</style>")] }
          (none, some rule)
        else (some e, none)
      else if buildExtensions.contains extension then
        if jsInlineEnabled o then
          let rule : Rule :=
            { selector := attr,
              actions := [.removeAttr "src", .setInner (escapeScript (inlineJsContent e))] }
          (none, some rule)
        else (some e, none)
      else
        (some { e with details := { e.details with kind := .asset, hash := hashFn e.diskText } },
         none)

/-- One pass of the inner loop over the whole graph. -/
def processEntries (o : Option BunPluginHTMLOptions) (buildExtensions : List String)
    (sassCompile : String → String) (hashFn : String → String) :
    List GEntry → List GEntry × List Rule
  | [] => ([], [])
  | e :: rest =>
    let (e', r) := processFileEntry o buildExtensions sassCompile hashFn e
    let (rest', rs) := processEntries o buildExtensions sassCompile hashFn rest
    ((match e' with | some x => [x] | none => []) ++ rest',
     (match r with | some ru => [ru] | none => []) ++ rs)

/-- `processHtmlFiles` (src/index.ts:559-649): the inner loop runs once per
HTML file of the graph; deletions are visible to later passes, and the
accumulated rules are returned in registration order. -/
def processHtmlFiles (o : Option BunPluginHTMLOptions) (buildExtensions : List String)
    (sassCompile : String → String) (hashFn : String → String) (files : List GEntry) :
    List GEntry × List Rule :=
  let htmlFiles := files.filter (fun e =>
    match e.name with
    | some n => [".html", ".htm"].contains (pathParse n).ext
    | none => false)
  htmlFiles.foldl (fun acc _ =>
    let (fs', rs') := processEntries o buildExtensions sassCompile hashFn acc.1
    (fs', acc.2 ++ rs')) (files, [])

/-- A markup element as a rule sees it. -/
structure Element where
  attrs : List (String × String)
  inner : String
  replaced : Option String
deriving DecidableEq, Repr

/-- Applying one registered element operation. -/
def applyAction (el : Element) : RuleAction → Element
  | .removeAttr n => { el with attrs := el.attrs.filter (fun a => a.1 ≠ n) }
  | .setInner s => { el with inner := s }
  | .replaceOuter s => { el with replaced := some s }

/-- Applying a rule's operations in order. -/
def applyActions (el : Element) (acts : List RuleAction) : Element :=
  acts.foldl applyAction el

/-! ### The reference extractor (`getAllFiles`) -/

/-- `attributesToSearch` (src/index.ts:95-102). -/
def attributesToSearch : List String :=
  ["src", "href", "data", "action", "data-src", "lowsrc"]

/-- An element as the extractor's rewriter callback sees it. -/
structure ElemInfo where
  tagName : String
  attrs : List (String × String)
deriving DecidableEq, Repr

/-- The attribute-priority scan of src/index.ts:163-169: the first
attribute of `attributesToSearch` present on the element. -/
def findSearchAttr (el : ElemInfo) : Option (String × String) :=
  attributesToSearch.findSome? (fun a => (alookup a el.attrs).map (fun v => (a, v)))

/-- Index of the first occurrence of `pat`, or `none`. -/
def firstIdxOfSubAux (pat : List Char) : List Char → Nat → Option Nat
  | [], i => if pat.isEmpty then some i else none
  | c :: cs, i => if pat.isPrefixOf (c :: cs) then some i else firstIdxOfSubAux pat cs (i + 1)

/-- JS `text.indexOf(search)`: first index, `-1` when absent. -/
def jsIndexOf (s sub : String) : Int :=
  match firstIdxOfSubAux sub.toList s.toList 0 with
  | some i => Int.ofNat i
  | none => -1

/-- Modelled from the spec: `returnLineNumberOfOccurance` from
`src/utils.ts` (not included under `src/`): the 1-based line number of the
first occurrence of `search` in `text` (0 when absent). -/
def returnLineNumberOfOccurance (text search : String) : Nat :=
  match firstIdxOfSubAux search.toList text.toList 0 with
  | some i => (text.toList.take i).count '\n' + 1
  | none => 0

/-- Modelled from the spec: `getColumnNumber` from `src/utils.ts` (not
included under `src/`): the column of position `index` within its line
(characters since the last newline; negative positions clamp to 0). -/
def getColumnNumber (text : String) (index : Int) : Nat :=
  let i := index.toNat
  let before := text.toList.take i
  before.length - ((before.reverse.dropWhile (fun c => c ≠ '\n')).length)

/-- Modelled from the spec: `getLines` from `src/utils.ts` (not included
under `src/`): the source excerpt of up to `count` lines ending at the
1-based line `line`. -/
def getLines (text : String) (count line : Nat) : String :=
  let lines := strSplitOn text "\n"
  String.intercalate "\n" ((lines.take line).drop (line - count))

/-- The positional diagnostic emitted for a missing reference
(src/index.ts:178-195): source excerpt, caret column, element tag,
attribute name/value, `file:line:column`.  The caret/column formula is the
source's: `getColumnNumber(fileText, indexOf(search) + search.length / 2)
+ digits(line) + 1` (the source first runs the no-op tab replacement
`fileText.replace(/\t/g, '\t')`). -/
structure Diag where
  excerpt : String
  caret : Nat
  tag : String
  attrName : String
  attrValue : String
  file : String
  line : Nat
  col : Nat
deriving DecidableEq, Repr

/-- Builds the missing-reference diagnostic of src/index.ts:178-194. -/
def mkMissingDiag (filePath fileText tag an av : String) : Diag :=
  let ft := strReplaceAll fileText "\t" "\t"
  let search := an ++ "=\"" ++ av ++ "\""
  let line := returnLineNumberOfOccurance ft search
  let columnNumber :=
    getColumnNumber ft (jsIndexOf ft search + Int.ofNat (search.length / 2))
      + (toString line).length + 1
  { excerpt := getLines ft 4 (line + 1), caret := columnNumber, tag := tag,
    attrName := an, attrValue := av, file := filePath, line := line, col := columnNumber }

/-- A file pushed by the extractor. -/
structure FoundFile where
  path : String
  details : FileDetails
deriving DecidableEq, Repr

/-- The element callback of `getAllFiles` (src/index.ts:159-212): picks the
first search attribute, skips empty/URL values and excluded extensions,
drops (with a diagnostic unless `suppressErrors` is `true`) references to
nonexistent files, and otherwise pushes a `chunk` entry carrying the HTML
entry's hash and importer. -/
def getAllFilesOnElement (o : Option BunPluginHTMLOptions)
    (cwd filePath htmlResolvedPath fileText hash : String)
    (fsExists : String → Bool) (el : ElemInfo) : Option FoundFile × List Diag :=
  match findSearchAttr el with
  | none => (none, [])
  | some (attributeName, attributeValue) =>
    if attributeValue = "" || isURL attributeValue then (none, [])
    else
      let resolvedPath := pathResolve cwd [pathDirname filePath, attributeValue]
      let extension := (pathParse resolvedPath).ext
      if ((o.bind (fun x => x.excludeExtensions)).getD []).contains extension then (none, [])
      else if !fsExists resolvedPath then
        (none,
          if suppressErrorsOf o = some true then []
          else [mkMissingDiag filePath fileText el.tagName attributeName attributeValue])
      else
        (some { path := resolvedPath,
                details := { kind := .chunk,
                             attr := some { name := attributeName, value := attributeValue },
                             hash := hash, originalPath := some resolvedPath,
                             htmlImporter := htmlResolvedPath, content := none } },
         [])

/-! ### The `onLoad` hook -/

/-- The filter regex `/\.(html|htm)$/` of the `onLoad` hook. -/
def onLoadHtmlFilter (p : String) : Bool :=
  jsEndsWith p ".html" || jsEndsWith p ".htm"

/-- The `onLoad` hook body (src/index.ts:804-808): it throws
unconditionally, for every matching path and every configuration. -/
def onLoadHtml (_o : Option BunPluginHTMLOptions) (_p : String) : Except String Unit :=
  .error "bun-plugin-html does not support output information at this time."

/-! ### Default selector/extension lists of `setup` -/

/-- `selectorsToExclude` (src/index.ts:109). -/
def selectorsToExclude : List String := ["a"]

/-- `extensionsToBuild` (src/index.ts:103-108). -/
def extensionsToBuild : List String := [".js", ".jsx", ".ts", ".tsx"]

/-- src/index.ts:812-814: the user's `excludeSelectors` concatenated with
the defaults (or the defaults alone). -/
def effectiveExcluded (user : Option (List String)) : List String :=
  match user with
  | some l => l ++ selectorsToExclude
  | none => selectorsToExclude

/-- src/index.ts:815-817: the user's `includeExtensions` concatenated with
the defaults (or the defaults alone). -/
def effectiveBuildExtensions (user : Option (List String)) : List String :=
  match user with
  | some l => l ++ extensionsToBuild
  | none => extensionsToBuild

/-! ## Helper lemmas -/

theorem alookup_aset_self (k : String) (v : α) (l : List (String × α)) :
    alookup k (aset k v l) = some v := by
  induction l with
  | nil => simp [aset, alookup]
  | cons h t ih =>
    obtain ⟨k', v'⟩ := h
    by_cases hk : k' = k
    · simp [aset, hk, alookup]
    · simp [aset, hk, alookup, ih]

theorem keepNamedAs_eq (origin pNew : ParsedPath) (resolved : String) (st : NamedAs) :
    keepNamedAs origin pNew resolved st =
      match alookup (pathJoin [origin.root, origin.dir]) ((alookup origin.base st).getD []) with
      | some e => (some e, st)
      | none =>
        if pathJoin [pNew.root, pNew.dir, pNew.base] ≠
            pathJoin [pathJoin [origin.root, origin.dir], origin.base] then
          (some { as := pathJoin [pNew.root, pNew.dir, pNew.base], fd := resolved },
           aset origin.base
             (aset (pathJoin [origin.root, origin.dir])
               { as := pathJoin [pNew.root, pNew.dir, pNew.base], fd := resolved }
               ((alookup origin.base st).getD [])) st)
        else (none, st) := rfl

theorem keepNamedAs_some_stable (origin pNew pNew' : ParsedPath) (resolved resolved' : String)
    (st : NamedAs) (e : NamedEntry) (h : (keepNamedAs origin pNew resolved st).1 = some e) :
    keepNamedAs origin pNew' resolved' (keepNamedAs origin pNew resolved st).2 =
      (some e, (keepNamedAs origin pNew resolved st).2) := by
  cases hl : alookup (pathJoin [origin.root, origin.dir]) ((alookup origin.base st).getD []) with
  | some e0 =>
    have h1 : keepNamedAs origin pNew resolved st = (some e0, st) := by
      rw [keepNamedAs_eq, hl]
    rw [h1] at h ⊢
    obtain rfl : e0 = e := by simpa using h
    rw [keepNamedAs_eq, hl]
  | none =>
    by_cases has : pathJoin [pNew.root, pNew.dir, pNew.base] =
        pathJoin [pathJoin [origin.root, origin.dir], origin.base]
    · have h1 : keepNamedAs origin pNew resolved st = (none, st) := by
        rw [keepNamedAs_eq, hl]
        simp [has]
      rw [h1] at h
      simp at h
    · have h1 : keepNamedAs origin pNew resolved st =
          (some { as := pathJoin [pNew.root, pNew.dir, pNew.base], fd := resolved },
           aset origin.base
             (aset (pathJoin [origin.root, origin.dir])
               { as := pathJoin [pNew.root, pNew.dir, pNew.base], fd := resolved }
               ((alookup origin.base st).getD [])) st) := by
        rw [keepNamedAs_eq, hl]
        simp [has]
      rw [h1] at h ⊢
      obtain rfl : ({ as := pathJoin [pNew.root, pNew.dir, pNew.base], fd := resolved } :
          NamedEntry) = e := by simpa using h
      rw [keepNamedAs_eq]
      rw [alookup_aset_self]
      simp only [Option.getD_some]
      rw [alookup_aset_self]

theorem keepNamedAs_none_unchanged (origin pNew : ParsedPath) (resolved : String)
    (st : NamedAs) (h : (keepNamedAs origin pNew resolved st).1 = none) :
    keepNamedAs origin pNew resolved st = (none, st) := by
  cases hl : alookup (pathJoin [origin.root, origin.dir]) ((alookup origin.base st).getD []) with
  | some e0 =>
    have h1 : keepNamedAs origin pNew resolved st = (some e0, st) := by
      rw [keepNamedAs_eq, hl]
    rw [h1] at h
    simp at h
  | none =>
    by_cases has : pathJoin [pNew.root, pNew.dir, pNew.base] =
        pathJoin [pathJoin [origin.root, origin.dir], origin.base]
    · rw [keepNamedAs_eq, hl]
      simp [has]
    · have h1 : keepNamedAs origin pNew resolved st =
          (some { as := pathJoin [pNew.root, pNew.dir, pNew.base], fd := resolved },
           aset origin.base
             (aset (pathJoin [origin.root, origin.dir])
               { as := pathJoin [pNew.root, pNew.dir, pNew.base], fd := resolved }
               ((alookup origin.base st).getD [])) st) := by
        rw [keepNamedAs_eq, hl]
        simp [has]
      rw [h1] at h
      simp at h

/-! ## Claim C1 -/

/-- C1: identity folding is first-discovery-wins.  Once `keepNamedAs` has
recorded (or found) a fold for a base name and source directory, every
subsequent call for the same base name and source directory returns exactly
the recorded final path and file handle and leaves the state unchanged —
whatever new path or resolved location the later discovery proposes (as
happens when the same source is reached through different relative-path
spellings).  When nothing was recorded (the rename was the identity), the
state is unchanged and a repeat of the same renaming yields the same final
handle again. -/
theorem c1_identity_folding_first_discovery_wins
    (st : NamedAs) (origin pNew : ParsedPath) (resolved : String) :
    (∀ (e : NamedEntry) (pNew' : ParsedPath) (resolved' : String),
      (keepNamedAs origin pNew resolved st).1 = some e →
      keepNamedAs origin pNew' resolved' (keepNamedAs origin pNew resolved st).2 =
        (some e, (keepNamedAs origin pNew resolved st).2) ∧
      finalHandle
        (keepNamedAs origin pNew' resolved' (keepNamedAs origin pNew resolved st).2).1 resolved' =
        finalHandle (keepNamedAs origin pNew resolved st).1 resolved) ∧
    ((keepNamedAs origin pNew resolved st).1 = none →
      keepNamedAs origin pNew resolved st = (none, st) ∧
      keepNamedAs origin pNew resolved ((keepNamedAs origin pNew resolved st).2) = (none, st) ∧
      finalHandle
        (keepNamedAs origin pNew resolved ((keepNamedAs origin pNew resolved st).2)).1 resolved =
        finalHandle (keepNamedAs origin pNew resolved st).1 resolved) := by
  constructor
  · intro e pNew' resolved' h
    have hs := keepNamedAs_some_stable origin pNew pNew' resolved resolved' st e h
    refine ⟨hs, ?_⟩
    rw [hs, h]
    rfl
  · intro h
    have h1 := keepNamedAs_none_unchanged origin pNew resolved st h
    have h2 : (keepNamedAs origin pNew resolved st).2 = st := by rw [h1]
    rw [h2]
    exact ⟨h1, h1, rfl⟩

/-- Witness for C1: a concrete first discovery of `x.png` from directory
`img` records the fold, and a second discovery through another spelling and
location reuses it. -/
theorem c1_witness :
    keepNamedAs (pathParse "img/x.png") (pathParse "other/x-deadbeef.png") "/elsewhere/x.png"
        (keepNamedAs (pathParse "img/x.png") (pathParse "img/x-abc123.png") "/out/img/x-abc123.png"
          []).2 =
      (some { as := "img/x-abc123.png", fd := "/out/img/x-abc123.png" },
       (keepNamedAs (pathParse "img/x.png") (pathParse "img/x-abc123.png") "/out/img/x-abc123.png"
         []).2) ∧
    finalHandle
        (keepNamedAs (pathParse "img/x.png") (pathParse "other/x-deadbeef.png") "/elsewhere/x.png"
          (keepNamedAs (pathParse "img/x.png") (pathParse "img/x-abc123.png")
            "/out/img/x-abc123.png" []).2).1 "/elsewhere/x.png" =
      finalHandle
        (keepNamedAs (pathParse "img/x.png") (pathParse "img/x-abc123.png") "/out/img/x-abc123.png"
          []).1 "/out/img/x-abc123.png" :=
  (c1_identity_folding_first_discovery_wins [] (pathParse "img/x.png")
    (pathParse "img/x-abc123.png") "/out/img/x-abc123.png").1
    { as := "img/x-abc123.png", fd := "/out/img/x-abc123.png" }
    (pathParse "other/x-deadbeef.png") "/elsewhere/x.png" (by decide)

/-! ## Claim C2 -/

theorem save_mem_saved (cwd : String) (kop : Option KeepVal) (namedAs : NamedAs)
    (outdir : Option String) (st : SaveState) (name : String) (body : BodyV) :
    ((save cwd kop namedAs outdir st name body).saved.contains name) = true := by
  unfold save
  split
  · next h => exact h
  · next h =>
    split
    · simp
    · cases body <;> simp

theorem save_saved_mono (cwd : String) (kop : Option KeepVal) (namedAs : NamedAs)
    (outdir : Option String) (st : SaveState) (name x : String) (body : BodyV)
    (h : st.saved.contains x = true) :
    ((save cwd kop namedAs outdir st name body).saved.contains x) = true := by
  unfold save
  split
  · exact h
  · split
    · simp_all
    · cases body <;> simp_all

theorem save_noop (cwd : String) (kop : Option KeepVal) (namedAs : NamedAs)
    (outdir : Option String) (st : SaveState) (name : String) (body : BodyV)
    (h : st.saved.contains name = true) :
    save cwd kop namedAs outdir st name body = st := by
  unfold save
  split
  · rfl
  · next hn => exact absurd h hn

theorem runSaves_saved_mono (cwd : String) (kop : Option KeepVal) (namedAs : NamedAs)
    (outdir : Option String) (calls : List (String × BodyV)) (st : SaveState) (x : String)
    (h : st.saved.contains x = true) :
    ((runSaves cwd kop namedAs outdir calls st).saved.contains x) = true := by
  induction calls generalizing st with
  | nil => exact h
  | cons c rest ih =>
    unfold runSaves
    simp only [List.foldl_cons]
    exact ih _ (save_saved_mono cwd kop namedAs outdir st c.1 x c.2 h)

theorem runSaves_names_saved (cwd : String) (kop : Option KeepVal) (namedAs : NamedAs)
    (outdir : Option String) (calls : List (String × BodyV)) (st : SaveState) (x : String)
    (h : (calls.map Prod.fst).contains x = true) :
    ((runSaves cwd kop namedAs outdir calls st).saved.contains x) = true := by
  induction calls generalizing st with
  | nil => simp [List.contains_nil] at h
  | cons c rest ih =>
    unfold runSaves
    simp only [List.foldl_cons]
    simp only [List.map_cons, List.contains_cons] at h
    rcases Bool.or_eq_true_iff.mp h with h1 | h2
    · have hx : x = c.1 := by simpa using h1
      subst hx
      exact runSaves_saved_mono cwd kop namedAs outdir rest _ c.1
        (save_mem_saved cwd kop namedAs outdir st c.1 c.2)
    · exact ih _ h2

/-- C2: the save operation writes each output path at most once per build:
in any sequence of `save` calls, a call whose path equals the path of an
earlier call of the same build is a complete no-op — deleting it does not
change the final state at all, so no write happens for it and the stored
content at that path stays that of the first call, regardless of how many
entries resolve to that path. -/
theorem c2_save_writes_each_path_at_most_once (cwd : String) (kop : Option KeepVal)
    (namedAs : NamedAs) (outdir : Option String) (pre post : List (String × BodyV))
    (c : String × BodyV) (st : SaveState)
    (h : (pre.map Prod.fst).contains c.1 = true) :
    runSaves cwd kop namedAs outdir (pre ++ c :: post) st =
      runSaves cwd kop namedAs outdir (pre ++ post) st := by
  unfold runSaves
  rw [List.foldl_append, List.foldl_append, List.foldl_cons]
  have hsaved : ((runSaves cwd kop namedAs outdir pre st).saved.contains c.1) = true :=
    runSaves_names_saved cwd kop namedAs outdir pre st c.1 h
  unfold runSaves at hsaved
  rw [save_noop cwd kop namedAs outdir _ c.1 c.2 hsaved]

/-- Witness for C2: writing `/out/a.js` twice (the second time with
different content) equals the run without the duplicate call. -/
theorem c2_witness :
    runSaves "/cwd" none [] none
        [("/out/a.js", .str "first"), ("/out/a.js", .str "second")]
        { saved := [], store := [] } =
      runSaves "/cwd" none [] none [("/out/a.js", .str "first")]
        { saved := [], store := [] } :=
  c2_save_writes_each_path_at_most_once "/cwd" none [] none
    [("/out/a.js", .str "first")] [] ("/out/a.js", .str "second")
    { saved := [], store := [] } (by decide)

/-! ## Claim C4 -/

/-- C4, counterexample: the claim states that with a per-kind naming option
`{entry, chunk, asset}` an artifact of kind `entry-point` is named with the
`entry` template.  In the JS compilation path (src/index.ts:309-312) the
inner build's `entry` naming is assigned the user's `chunk` template
instead: with `{entry := "E", chunk := "C", asset := "A"}` the naming
passed for entry-point artifacts is `"C"`, not `"E"`. -/
theorem c4_counterexample :
    (forJsFilesNaming (NamingCfg.obj (some "E") (some "C") (some "A"))).1 = some "C" ∧
    (forJsFilesNaming (NamingCfg.obj (some "E") (some "C") (some "A"))).1 ≠ some "E" := by
  constructor
  · rfl
  · decide

/-- C4 (amended): naming-template resolution.  In `renameFile`
(src/index.ts:691-698) the per-kind selection honours the artifact kind
(`entry-point` → `entry`, `chunk` → `chunk`, `asset` → `asset`), a single
string applies uniformly to every kind, and a non-empty `naming.css`
override wins for style extensions.  In the JS compilation path
(src/index.ts:304-315), however, a single string still applies uniformly
but a per-kind object maps the inner build's `entry` naming to the user's
`chunk` template (not the `entry` template), keeps `chunk` and `asset`,
and an absent naming falls back to `./[name]-[hash].[ext]` for entries. -/
theorem c4_naming_template_resolution (e c a : Option String) (s css ext : String) (k : Kind) :
    (isCssLikeExt ext = false →
      selectNaming none (NamingCfg.obj e c a) ext Kind.entryPoint = e ∧
      selectNaming none (NamingCfg.obj e c a) ext Kind.chunk = c ∧
      selectNaming none (NamingCfg.obj e c a) ext Kind.asset = a) ∧
    (selectNaming none (NamingCfg.str s) ext k = some s) ∧
    (isCssLikeExt ext = true → css ≠ "" →
      selectNaming (some css) (NamingCfg.obj e c a) ext k = some css ∧
      selectNaming (some css) (NamingCfg.str s) ext k = some css) ∧
    (forJsFilesNaming (NamingCfg.str s) = (some s, some s, some s)) ∧
    (forJsFilesNaming (NamingCfg.obj e c a) = (c, c, a)) ∧
    (forJsFilesNaming NamingCfg.undef = (some "./[name]-[hash].[ext]", none, none)) := by
  refine ⟨?_, ?_, ?_, rfl, rfl, rfl⟩
  · intro hcss
    unfold selectNaming
    simp [hcss, buildNamingType]
  · unfold selectNaming
    by_cases hcss : isCssLikeExt ext = true <;> simp [hcss]
  · intro hcss hne
    unfold selectNaming
    simp [hcss, hne]

/-- Witness for C4: the amended selection at concrete inputs (`.js` is not
style-like, `.scss` is, and a non-empty override is given). -/
theorem c4_witness :
    (selectNaming none (NamingCfg.obj (some "E") (some "C") (some "A")) ".js" Kind.entryPoint =
        some "E" ∧
      selectNaming none (NamingCfg.obj (some "E") (some "C") (some "A")) ".js" Kind.chunk =
        some "C" ∧
      selectNaming none (NamingCfg.obj (some "E") (some "C") (some "A")) ".js" Kind.asset =
        some "A") ∧
    (selectNaming (some "[name]-[hash].css") (NamingCfg.obj (some "E") (some "C") (some "A"))
        ".scss" Kind.chunk = some "[name]-[hash].css" ∧
      selectNaming (some "[name]-[hash].css") (NamingCfg.str "S") ".scss" Kind.chunk =
        some "[name]-[hash].css") :=
  ⟨(c4_naming_template_resolution (some "E") (some "C") (some "A") "S" "[name]-[hash].css" ".js"
      Kind.chunk).1 (by decide),
   (c4_naming_template_resolution (some "E") (some "C") (some "A") "S" "[name]-[hash].css" ".scss"
      Kind.chunk).2.2.1 (by decide) (by decide)⟩

/-! ## Claim C9 -/

/-- C9: loading an HTML file as a standalone module is always fatal: for
every path matching the hook's `/\.(html|htm)$/` filter and every
configuration (in particular any `suppressErrors` setting), the `onLoad`
hook throws its fixed error unconditionally. -/
theorem c9_onload_html_always_throws (o : Option BunPluginHTMLOptions) (p : String)
    (_hp : onLoadHtmlFilter p = true) :
    onLoadHtml o p =
      Except.error "bun-plugin-html does not support output information at this time." := rfl

/-- Witness for C9: the hook throws on `index.html` even with
`suppressErrors: true`. -/
theorem c9_witness :
    onLoadHtml
        (some { inline := none, namingCss := none, includeExtensions := none,
                excludeExtensions := none, excludeSelectors := none, keepOriginalPaths := none,
                suppressErrors := some true }) "index.html" =
      Except.error "bun-plugin-html does not support output information at this time." :=
  c9_onload_html_always_throws
    (some { inline := none, namingCss := none, includeExtensions := none,
            excludeExtensions := none, excludeSelectors := none, keepOriginalPaths := none,
            suppressErrors := some true }) "index.html" (by decide)

/-! ## Claim C10 -/

/-- C10: user-supplied exclusion and inclusion lists extend the defaults:
the effective excluded-selector list is the user's `excludeSelectors`
concatenated with the default `["a"]` and the effective buildable-extension
list is the user's `includeExtensions` concatenated with
`[".js", ".jsx", ".ts", ".tsx"]`; consequently `a` is always an excluded
selector and each default script extension is always buildable, whatever
the user passes. -/
theorem c10_user_lists_extend_defaults (u v : Option (List String)) :
    effectiveExcluded u = u.getD [] ++ ["a"] ∧
    effectiveBuildExtensions v = v.getD [] ++ [".js", ".jsx", ".ts", ".tsx"] ∧
    "a" ∈ effectiveExcluded u ∧
    ".js" ∈ effectiveBuildExtensions v ∧
    ".jsx" ∈ effectiveBuildExtensions v ∧
    ".ts" ∈ effectiveBuildExtensions v ∧
    ".tsx" ∈ effectiveBuildExtensions v := by
  cases u <;> cases v <;>
    simp [effectiveExcluded, effectiveBuildExtensions, selectorsToExclude, extensionsToBuild]

/-! ## Claim C3 -/

/-- C3, counterexample: the claim's "skipped iff the target path contains
the hash and a file exists there" fails on the non-entry loop, whose guard
`if (!name || !details.content) continue` (src/index.ts:917) also skips any
entry whose content is JS-falsy.  An entry with empty-string content is
skipped although its path does not contain its hash and no file exists at
that path. -/
theorem c3_counterexample :
    nonEntrySkip (some "out/main.css") (BodyV.str "") "9abc1234" (fun _ => false) = true ∧
    (jsIncludes "out/main.css" "9abc1234" &&
        (fun (_ : String) => false) "out/main.css") = false := by
  exact ⟨rfl, rfl⟩

/-- C3 (amended): for every output entry that has a name and JS-truthy
content, the non-entry write step is skipped iff the target path contains
the computed hash as a substring and a file already exists at that path;
the entry-point write step satisfies the same iff unconditionally (given a
name); and consequently a rebuild in which the target path embeds the hash
and the file already exists skips every output path.  Entries with a
missing name or falsy (empty) content are additionally skipped by the
non-entry loop regardless of hash and existence. -/
theorem c3_write_skip_iff_hash_embedded_and_exists (n : String) (content : BodyV)
    (hash : String) (fsExists : String → Bool) :
    (truthy content = true →
      nonEntrySkip (some n) content hash fsExists = (jsIncludes n hash && fsExists n)) ∧
    (entrySkip (some n) hash fsExists = (jsIncludes n hash && fsExists n)) ∧
    (jsIncludes n hash = true → fsExists n = true →
      nonEntrySkip (some n) content hash fsExists = true ∧
      entrySkip (some n) hash fsExists = true) := by
  refine ⟨?_, rfl, ?_⟩
  · intro ht
    unfold nonEntrySkip
    simp [ht]
  · intro h1 h2
    constructor
    · unfold nonEntrySkip
      by_cases ht : truthy content = true
      · simp [ht, h1, h2]
      · simp only [Bool.not_eq_true] at ht
        simp [ht]
    · unfold entrySkip
      simp [h1, h2]

/-- Witness for C3: a hash-embedding output name that already exists is
skipped; the iff holds at truthy content. -/
theorem c3_witness :
    nonEntrySkip (some "main-9abc1234.css") (BodyV.str "x") "9abc1234" (fun _ => true) =
      (jsIncludes "main-9abc1234.css" "9abc1234" &&
        (fun (_ : String) => true) "main-9abc1234.css") ∧
    nonEntrySkip (some "main-9abc1234.css") (BodyV.str "x") "9abc1234" (fun _ => true) = true :=
  ⟨(c3_write_skip_iff_hash_embedded_and_exists "main-9abc1234.css" (BodyV.str "x") "9abc1234"
      (fun _ => true)).1 (by decide),
   ((c3_write_skip_iff_hash_embedded_and_exists "main-9abc1234.css" (BodyV.str "x") "9abc1234"
      (fun _ => true)).2.2 (by decide) (by decide)).1⟩

/-! ## Claim C5 -/

theorem mem_nonEntryPass_kind (f : String → Bool) (l : List OutEntry) (e : OutEntry)
    (h : e ∈ nonEntryPass f l) : e.kind ≠ Kind.entryPoint := by
  unfold nonEntryPass at h
  have h1 := (List.mem_filter.mp h).1
  have h2 := (List.mem_filter.mp h1).2
  simpa using h2

theorem mem_entryPass_kind (f : String → Bool) (l : List OutEntry) (e : OutEntry)
    (h : e ∈ entryPass f l) : e.kind = Kind.entryPoint := by
  unfold entryPass at h
  have h1 := (List.mem_filter.mp h).1
  have h2 := (List.mem_filter.mp h1).2
  simpa using h2

/-- C5: entry-point HTML documents are written last.  In the save-call
sequence of one build, every call for a non-entry-point artifact precedes
every call for an entry-point document: whenever position `i` holds a
non-entry artifact and position `j` holds an entry-point document,
`i < j`. -/
theorem c5_entry_point_html_written_last (fsExists : String → Bool) (l : List OutEntry)
    (i j : Nat) (hi : i < (saveCallSequence fsExists l).length)
    (hj : j < (saveCallSequence fsExists l).length)
    (hki : ((saveCallSequence fsExists l).get ⟨i, hi⟩).kind ≠ Kind.entryPoint)
    (hkj : ((saveCallSequence fsExists l).get ⟨j, hj⟩).kind = Kind.entryPoint) :
    i < j := by
  have hA : i < (nonEntryPass fsExists l).length := by
    by_contra hcon
    push_neg at hcon
    have hg2: (saveCallSequence fsExists l).get ⟨i, hi⟩ ∈ entryPass fsExists l := by
      have hlen : i - (nonEntryPass fsExists l).length < (entryPass fsExists l).length := by
        have := hi
        unfold saveCallSequence at this
        simp only [List.length_append] at this
        omega
      have : (saveCallSequence fsExists l).get ⟨i, hi⟩ =
          (entryPass fsExists l).get ⟨i - (nonEntryPass fsExists l).length, hlen⟩ := by
        simp only [saveCallSequence, List.get_eq_getElem]
        exact List.getElem_append_right hcon
      rw [this]
      exact List.get_mem _ _ _
    exact hki (mem_entryPass_kind fsExists l _ hg2)
  have hB : ¬ j < (nonEntryPass fsExists l).length := by
    intro hcon
    have hg : (saveCallSequence fsExists l).get ⟨j, hj⟩ ∈ nonEntryPass fsExists l := by
      have : (saveCallSequence fsExists l).get ⟨j, hj⟩ =
          (nonEntryPass fsExists l).get ⟨j, hcon⟩ := by
        simp only [saveCallSequence, List.get_eq_getElem]
        exact List.getElem_append_left hcon
      rw [this]
      exact List.get_mem _ _ _
    exact mem_nonEntryPass_kind fsExists l _ hg hkj
  omega

/-- Witness for C5: with one asset and one entry-point HTML in the graph,
the asset's save (position 0) precedes the HTML's save (position 1). -/
theorem c5_witness :
    ((saveCallSequence (fun _ => false)
        [{ name := some "a.css", content := .str "x", kind := .asset, hash := "h" },
         { name := some "i.html", content := .str "y", kind := .entryPoint, hash := "g" }]).get
      ⟨0, by decide⟩).kind ≠ Kind.entryPoint ∧
    ((saveCallSequence (fun _ => false)
        [{ name := some "a.css", content := .str "x", kind := .asset, hash := "h" },
         { name := some "i.html", content := .str "y", kind := .entryPoint, hash := "g" }]).get
      ⟨1, by decide⟩).kind = Kind.entryPoint ∧
    (0 : Nat) < 1 :=
  ⟨by decide, by decide,
   c5_entry_point_html_written_last (fun _ => false)
     [{ name := some "a.css", content := .str "x", kind := .asset, hash := "h" },
      { name := some "i.html", content := .str "y", kind := .entryPoint, hash := "g" }]
     0 1 (by decide) (by decide) (by decide) (by decide)⟩

/-! ## Claim C7 -/

/-- C7: missing-asset resilience.  For every markup reference whose first
search attribute is present with a non-empty, non-URL value, whose resolved
extension is not excluded, and whose resolved path does not exist, the
extractor's element callback returns without adding the reference to the
graph (it is a total function — the build continues), and the positional
diagnostic (source excerpt, caret column, tag, attribute name/value,
file:line:column) is emitted iff `suppressErrors` is not `true`. -/
theorem c7_missing_asset_resilience (o : Option BunPluginHTMLOptions)
    (cwd filePath htmlResolvedPath fileText hash : String) (fsExists : String → Bool)
    (el : ElemInfo) (an av : String)
    (hfind : findSearchAttr el = some (an, av))
    (hne : av ≠ "")
    (hurl : isURL av = false)
    (hext : ((o.bind (fun x => x.excludeExtensions)).getD []).contains
      ((pathParse (pathResolve cwd [pathDirname filePath, av])).ext) = false)
    (hmiss : fsExists (pathResolve cwd [pathDirname filePath, av]) = false) :
    (getAllFilesOnElement o cwd filePath htmlResolvedPath fileText hash fsExists el).1 = none ∧
    ((getAllFilesOnElement o cwd filePath htmlResolvedPath fileText hash fsExists el).2 =
        [mkMissingDiag filePath fileText el.tagName an av] ↔
      suppressErrorsOf o ≠ some true) ∧
    ((getAllFilesOnElement o cwd filePath htmlResolvedPath fileText hash fsExists el).2 = [] ↔
      suppressErrorsOf o = some true) := by
  unfold getAllFilesOnElement
  rw [hfind]
  simp only [hne, hurl, hext, hmiss]
  by_cases hsup : suppressErrorsOf o = some true <;> simp [hsup, hne, hurl]

/-- Witness for C7: with no options (errors not suppressed), a missing
`x.png` referenced from `img[src]` is dropped and one diagnostic is
emitted. -/
theorem c7_witness :
    (getAllFilesOnElement none "/cwd" "./test/index.html" "/cwd/test/index.html"
        "<img src=\"x.png\">" "abcd1234" (fun _ => false)
        { tagName := "img", attrs := [("src", "x.png")] }).1 = none ∧
    ((getAllFilesOnElement none "/cwd" "./test/index.html" "/cwd/test/index.html"
        "<img src=\"x.png\">" "abcd1234" (fun _ => false)
        { tagName := "img", attrs := [("src", "x.png")] }).2 =
      [mkMissingDiag "./test/index.html" "<img src=\"x.png\">" "img" "src" "x.png"] ↔
      suppressErrorsOf none ≠ some true) :=
  ⟨(c7_missing_asset_resilience none "/cwd" "./test/index.html" "/cwd/test/index.html"
      "<img src=\"x.png\">" "abcd1234" (fun _ => false)
      { tagName := "img", attrs := [("src", "x.png")] } "src" "x.png" (by decide) (by decide)
      (by decide) (by decide) (by decide)).1,
   (c7_missing_asset_resilience none "/cwd" "./test/index.html" "/cwd/test/index.html"
      "<img src=\"x.png\">" "abcd1234" (fun _ => false)
      { tagName := "img", attrs := [("src", "x.png")] } "src" "x.png" (by decide) (by decide)
      (by decide) (by decide) (by decide)).2.1⟩

/-! ## Claim C8 -/

/-- C8: `keepOriginalPaths` semantics of the literal-fold rewrite in
`save`.  (1) With `keepOriginalPaths: true`, a not-yet-saved string body is
stored byte-for-byte unchanged — no path literal is rewritten.  (2) A
matched literal whose reference is a URL is always left unchanged,
whatever the option.  (3) With an array, a matched literal whose
(query-stripped) path matches a listed path — the source's match test is
"some listed path is a suffix of it" — is exempted: the content is left
unchanged for that literal.  (4) A matched literal that is not exempted is
processed exactly as it would be with no `keepOriginalPaths` option at
all, i.e. all other matching literals are still rewritten. -/
theorem c8_keep_original_paths_semantics (cwd : String) (kop : Option KeepVal)
    (namedAs : NamedAs) (outdir : Option String) (st : SaveState) (name s : String)
    (hostDir originName : String) (asNewNames : List (String × NamedEntry))
    (content ctx : String) (arr : List String) :
    (st.saved.contains name = false →
      (save cwd (some (KeepVal.bool true)) namedAs outdir st name (BodyV.str s)).store =
        aset name (BodyV.str s) st.store) ∧
    (isURL (ctxInner ctx) = true →
      processPathString cwd kop hostDir originName asNewNames content ctx = content) ∧
    (exemptedBy arr (stripQuery (ctxInner ctx)) = true →
      processPathString cwd (some (KeepVal.list arr)) hostDir originName asNewNames content ctx =
        content) ∧
    (exemptedBy arr (stripQuery (ctxInner ctx)) = false →
      processPathString cwd (some (KeepVal.list arr)) hostDir originName asNewNames content ctx =
        processPathString cwd none hostDir originName asNewNames content ctx) := by
  refine ⟨?_, ?_, ?_, ?_⟩
  · intro h
    unfold save
    split
    · next hc => rw [h] at hc; exact Bool.noConfusion hc
    · rw [if_pos rfl]
  · intro h
    unfold processPathString
    simp [h]
  · intro h
    unfold processPathString
    by_cases hurl : isURL (ctxInner ctx) = true
    · simp [hurl]
    · simp only [Bool.not_eq_true] at hurl
      simp [hurl, h]
  · intro h
    unfold processPathString
    by_cases hurl : isURL (ctxInner ctx) = true
    · simp [hurl]
    · simp only [Bool.not_eq_true] at hurl
      simp [hurl, h]

/-- Witness for C8: `true` stores the body unchanged; a URL literal and an
exempted literal are untouched; a non-exempt literal is rewritten exactly
as without the option. -/
theorem c8_witness :
    (save "/cwd" (some (KeepVal.bool true)) [] none { saved := [], store := [] } "/out/a.js"
        (BodyV.str "code")).store = aset "/out/a.js" (BodyV.str "code") [] ∧
    processPathString "/cwd" none "" "x.png" [("img", { as := "img/x-h.png", fd := "f" })]
        "u:\"http://a/x.png\"" "\"http://a/x.png\"" = "u:\"http://a/x.png\"" ∧
    processPathString "/cwd" (some (KeepVal.list ["x.png"])) "" "x.png"
        [("img", { as := "img/x-h.png", fd := "f" })] "u:\"img/x.png\"" "\"img/x.png\"" =
      "u:\"img/x.png\"" ∧
    processPathString "/cwd" (some (KeepVal.list ["other.png"])) "" "x.png"
        [("img", { as := "img/x-h.png", fd := "f" })] "u:\"img/x.png\"" "\"img/x.png\"" =
      processPathString "/cwd" none "" "x.png" [("img", { as := "img/x-h.png", fd := "f" })]
        "u:\"img/x.png\"" "\"img/x.png\"" :=
  ⟨(c8_keep_original_paths_semantics "/cwd" none [] none { saved := [], store := [] } "/out/a.js"
      "code" "" "x.png" [("img", { as := "img/x-h.png", fd := "f" })] "u" "\"u\"" []).1
      (by decide),
   (c8_keep_original_paths_semantics "/cwd" none [] none { saved := [], store := [] } "n" "s" ""
      "x.png" [("img", { as := "img/x-h.png", fd := "f" })] "u:\"http://a/x.png\""
      "\"http://a/x.png\"" []).2.1 (by decide),
   (c8_keep_original_paths_semantics "/cwd" none [] none { saved := [], store := [] } "n" "s" ""
      "x.png" [("img", { as := "img/x-h.png", fd := "f" })] "u:\"img/x.png\"" "\"img/x.png\""
      ["x.png"]).2.2.1 (by decide),
   (c8_keep_original_paths_semantics "/cwd" none [] none { saved := [], store := [] } "n" "s" ""
      "x.png" [("img", { as := "img/x-h.png", fd := "f" })] "u:\"img/x.png\"" "\"img/x.png\""
      ["other.png"]).2.2.2 (by decide)⟩

/-! ## Claim C6 -/

/-- The literal `</script>` pattern of the escape. -/
def scriptCloseTag : List Char := "</script>".toList

/-- The escaped replacement `\x3C/script>` (a literal backslash). -/
def scriptCloseEsc : List Char := "\\x3C/script>".toList

theorem isPrefixOf_eq_true_iff (l1 l2 : List Char) : l1.isPrefixOf l2 = true ↔ l1 <+: l2 :=
  List.isPrefixOf_iff_prefix

theorem containsL_true_iff (p : List Char) : ∀ l : List Char,
    containsL p l = true ↔ p <:+: l := by
  intro l
  induction l with
  | nil =>
    simp only [containsL, List.isEmpty_iff, List.infix_nil]
  | cons c cs ih =>
    simp only [containsL, Bool.or_eq_true, ih, List.infix_cons_iff, isPrefixOf_eq_true_iff]

/-- Prefix transfer through the escape: a backslash-free prefix of the
escaped output is already a prefix of the input. -/
theorem replaceAllFuel_pref_transfer : ∀ (fuel : Nat) (cs q : List Char), cs.length ≤ fuel →
    '\\' ∉ q → q <+: replaceAllFuel scriptCloseTag scriptCloseEsc fuel cs → q <+: cs := by
  intro fuel
  induction fuel with
  | zero =>
    intro cs q _ _ hq
    exact hq
  | succ fuel ih =>
    intro cs q hlen hnb hq
    cases cs with
    | nil =>
      simpa [replaceAllFuel] using hq
    | cons c cs' =>
      by_cases hp : scriptCloseTag.isPrefixOf (c :: cs') = true
      · rw [replaceAllFuel, if_pos hp] at hq
        cases q with
        | nil => exact List.nil_prefix
        | cons h q' =>
          exfalso
          have hesc : scriptCloseEsc ++
              replaceAllFuel scriptCloseTag scriptCloseEsc fuel ((c :: cs').drop
                scriptCloseTag.length) =
              '\\' :: ("x3C/script>".toList ++
                replaceAllFuel scriptCloseTag scriptCloseEsc fuel ((c :: cs').drop
                  scriptCloseTag.length)) := rfl
          rw [hesc] at hq
          have hh := (List.cons_prefix_cons.mp hq).1
          exact hnb (hh ▸ List.mem_cons_self h q')
      · rw [replaceAllFuel, if_neg hp] at hq
        cases q with
        | nil => exact List.nil_prefix
        | cons h q' =>
          obtain ⟨hh, hq'⟩ := List.cons_prefix_cons.mp hq
          have hnb' : '\\' ∉ q' := fun hmem => hnb (List.mem_cons_of_mem h hmem)
          have hlen' : cs'.length ≤ fuel := by
            simp only [List.length_cons] at hlen
            omega
          exact List.cons_prefix_cons.mpr ⟨hh, ih cs' q' hlen' hnb' hq'⟩

/-- The escape leaves no literal `</script>` in its output. -/
theorem replaceAllFuel_no_close_tag : ∀ (fuel : Nat) (cs : List Char), cs.length ≤ fuel →
    ¬ scriptCloseTag <:+: replaceAllFuel scriptCloseTag scriptCloseEsc fuel cs := by
  intro fuel
  induction fuel with
  | zero =>
    intro cs hlen hinf
    have hnil : cs = [] := List.length_eq_zero.mp (Nat.le_zero.mp hlen)
    subst hnil
    rw [show replaceAllFuel scriptCloseTag scriptCloseEsc 0 [] = [] from rfl,
      List.infix_nil] at hinf
    exact absurd hinf (by decide)
  | succ fuel ih =>
    intro cs hlen hinf
    cases cs with
    | nil =>
      rw [show replaceAllFuel scriptCloseTag scriptCloseEsc (fuel + 1) [] = [] from rfl,
        List.infix_nil] at hinf
      exact absurd hinf (by decide)
    | cons c cs' =>
      have hlen' : cs'.length ≤ fuel := by
        simp only [List.length_cons] at hlen
        omega
      by_cases hp : scriptCloseTag.isPrefixOf (c :: cs') = true
      · rw [replaceAllFuel, if_pos hp] at hinf
        obtain ⟨s, t, hst⟩ := hinf
        have hst' : s ++ (scriptCloseTag ++ t) =
            scriptCloseEsc ++
              replaceAllFuel scriptCloseTag scriptCloseEsc fuel ((c :: cs').drop
                scriptCloseTag.length) := by
          simpa [List.append_assoc] using hst
        have h9 : scriptCloseTag.length = 9 := rfl
        have hdlen : ((c :: cs').drop scriptCloseTag.length).length ≤ fuel := by
          simp only [List.length_drop, List.length_cons, h9]
          omega
        rcases List.append_eq_append_iff.mp hst' with ⟨a', ha1, ha2⟩ | ⟨c', hc1, hc2⟩
        · cases a' with
          | nil =>
            exact ih _ hdlen ⟨[], t, by simpa using ha2⟩
          | cons h a'' =>
            rw [show scriptCloseTag = '<' :: "/script>".toList from rfl] at ha2
            simp only [List.cons_append] at ha2
            have hh : '<' = h := by
              injection ha2 with hh0 hh1
            have hmem : '<' ∈ scriptCloseEsc := by
              rw [ha1]
              refine List.mem_append_right s ?_
              rw [← hh]
              exact List.mem_cons_self '<' a''
            exact absurd hmem (by decide)
        · exact ih _ hdlen ⟨c', t, by rw [hc2, List.append_assoc]⟩
      · rw [replaceAllFuel, if_neg hp] at hinf
        rcases List.infix_cons_iff.mp hinf with hpre | hinf'
        · have hsplit : scriptCloseTag = '<' :: "/script>".toList := rfl
          rw [hsplit] at hpre
          obtain ⟨hc, hq⟩ := List.cons_prefix_cons.mp hpre
          have h2 : "/script>".toList <+: cs' :=
            replaceAllFuel_pref_transfer fuel cs' _ hlen' (by decide) hq
          apply hp
          rw [isPrefixOf_eq_true_iff, hsplit]
          exact List.cons_prefix_cons.mpr ⟨hc, h2⟩
        · exact ih cs' hlen' hinf'

/-- When the input has no literal `</script>`, the escape is the
identity. -/
theorem replaceAllFuel_id_of_no_tag : ∀ (fuel : Nat) (cs : List Char),
    containsL scriptCloseTag cs = false →
    replaceAllFuel scriptCloseTag scriptCloseEsc fuel cs = cs := by
  intro fuel
  induction fuel with
  | zero => intro cs _; rfl
  | succ fuel ih =>
    intro cs hc
    cases cs with
    | nil => rfl
    | cons c cs' =>
      rw [containsL] at hc
      rcases Bool.or_eq_false_iff.mp hc with ⟨h1, h2⟩
      rw [replaceAllFuel, if_neg (by simp [h1]), ih cs' h2]

/-- `processEntries` on a cons: the head entry contributes its surviving
entry and its rule in front of the tail's results. -/
theorem processEntries_cons (o : Option BunPluginHTMLOptions) (bx : List String)
    (sc hf : String → String) (e : GEntry) (rest : List GEntry) :
    processEntries o bx sc hf (e :: rest) =
      ((processFileEntry o bx sc hf e).1.toList ++ (processEntries o bx sc hf rest).1,
       (processFileEntry o bx sc hf e).2.toList ++ (processEntries o bx sc hf rest).2) := by
  rcases h1 : processFileEntry o bx sc hf e with ⟨e1, r1⟩
  rcases h2 : processEntries o bx sc hf rest with ⟨rest1, rs1⟩
  simp only [processEntries, h1, h2]
  cases e1 <;> cases r1 <;> simp [Option.toList]

/-- C6 (amended): inlining exclusivity.  For a graph entry with a
referencing attribute: (css) when its extension is style-like and CSS
inlining is on, the entry is removed from the graph (`processFileEntry`
yields `none`, so `processEntries` drops it and no output is ever produced
for it) and the registered rule replaces the whole element — attributes
included — by a `style` element wrapping the compiled text; (js) when its
extension is buildable and JS inlining is on, the entry is removed likewise
and the rule removes the literal `src` attribute and sets the inner content
to the compiled text with every `</script>` escaped — so when the element
was referenced through `src`, applying the rule leaves no attribute and the
inner content equals the escaped compiled text, but a reference through
another search attribute (e.g. `data-src`) keeps that attribute; the escape
leaves no literal `</script>` in the injected text and is the identity on
text without one. -/
theorem c6_inlining_exclusivity (o : Option BunPluginHTMLOptions)
    (buildExtensions : List String) (sassCompile hashFn : String → String) (e : GEntry)
    (a : Attr) (nm v s : String) (rest : List GEntry) (r : Rule) :
    (e.details.attr = some a → e.name = some nm →
      isCssLikeExt (pathParse nm).ext = true → cssInlineEnabled o = true →
      processFileEntry o buildExtensions sassCompile hashFn e =
        (none, some ⟨a, [.replaceOuter
          ("<style>" ++ inlineCssContent sassCompile e (pathParse nm).ext ++ "</style>")]⟩) ∧
      ∀ el : Element,
        (applyActions el [RuleAction.replaceOuter
          ("<style>" ++ inlineCssContent sassCompile e (pathParse nm).ext ++ "</style>")]).replaced =
        some ("<style>" ++ inlineCssContent sassCompile e (pathParse nm).ext ++ "</style>")) ∧
    (e.details.attr = some a → e.name = some nm →
      isCssLikeExt (pathParse nm).ext = false →
      buildExtensions.contains (pathParse nm).ext = true → jsInlineEnabled o = true →
      processFileEntry o buildExtensions sassCompile hashFn e =
        (none, some ⟨a, [.removeAttr "src",
          .setInner (escapeScript (inlineJsContent e))]⟩) ∧
      applyActions { attrs := [("src", v)], inner := "", replaced := none }
          [.removeAttr "src", .setInner (escapeScript (inlineJsContent e))] =
        { attrs := [], inner := escapeScript (inlineJsContent e), replaced := none }) ∧
    (processFileEntry o buildExtensions sassCompile hashFn e = (none, some r) →
      processEntries o buildExtensions sassCompile hashFn (e :: rest) =
        ((processEntries o buildExtensions sassCompile hashFn rest).1,
         r :: (processEntries o buildExtensions sassCompile hashFn rest).2)) ∧
    (jsIncludes (escapeScript s) "</script>" = false) ∧
    (jsIncludes s "</script>" = false → escapeScript s = s) := by
  refine ⟨?_, ?_, ?_, ?_, ?_⟩
  · intro ha hn hcss hon
    refine ⟨?_, ?_⟩
    · unfold processFileEntry
      rw [ha, hn]
      simp [hcss, hon]
    · intro el
      rfl
  · intro ha hn hcss hbld hon
    refine ⟨?_, rfl⟩
    unfold processFileEntry
    rw [ha, hn]
    have hbld' : (pathParse nm).ext ∈ buildExtensions := by simpa using hbld
    simp [hcss, hon, hbld']
  · intro hpe
    rw [processEntries_cons, hpe]
    simp
  · show containsL scriptCloseTag
      (replaceAllFuel scriptCloseTag scriptCloseEsc s.toList.length s.toList) = false
    exact Bool.eq_false_iff.mpr (fun hc =>
      replaceAllFuel_no_close_tag s.toList.length s.toList (Nat.le_refl _)
        ((containsL_true_iff scriptCloseTag _).mp hc))
  · intro hnone
    show (replaceAllFuel scriptCloseTag scriptCloseEsc s.toList.length s.toList).asString = s
    rw [replaceAllFuel_id_of_no_tag s.toList.length s.toList hnone]
    rfl

/-- C6, counterexample: the claim asserts the rewritten element's
source-style (reference) attribute is absent for every inlined asset.  For
a script referenced through `data-src` — one of the extractor's search
attributes — the registered inline rule removes only the literal `src`
attribute (src/index.ts:627), so the referencing `data-src` attribute
survives the rewrite. -/
theorem c6_counterexample :
    processFileEntry
        (some { inline := some (.bool true), namingCss := none, includeExtensions := none,
                excludeExtensions := none, excludeSelectors := none, keepOriginalPaths := none,
                suppressErrors := none })
        [".js", ".jsx", ".ts", ".tsx"] (fun t => t) (fun _ => "h2")
        { name := some "/p/x.js", diskText := "1;",
          details := { kind := .chunk, attr := some { name := "data-src", value := "x.js" },
                       hash := "h", originalPath := some "/p/x.js",
                       htmlImporter := "/p/i.html", content := none } } =
      (none, some ⟨{ name := "data-src", value := "x.js" },
        [.removeAttr "src", .setInner "1;"]⟩) ∧
    (applyActions { attrs := [("data-src", "x.js")], inner := "", replaced := none }
        [.removeAttr "src", .setInner "1;"]).attrs = [("data-src", "x.js")] := by
  exact ⟨by decide, by decide⟩

/-- Witness for C6: a concrete `.scss` entry inlined as a style element, a
concrete `.js` entry inlined with `src` removed and content escaped, the
removal of the inlined entry from the graph, and the escape facts at
`"a</script>b"`. -/
theorem c6_witness :
    (processFileEntry
        (some { inline := some (.bool true), namingCss := none, includeExtensions := none,
                excludeExtensions := none, excludeSelectors := none, keepOriginalPaths := none,
                suppressErrors := none })
        [".js", ".jsx", ".ts", ".tsx"] (fun t => "C:" ++ t) (fun _ => "h2")
        { name := some "/p/m.scss", diskText := "$x: 1;",
          details := { kind := .chunk, attr := some { name := "href", value := "m.scss" },
                       hash := "h", originalPath := some "/p/m.scss",
                       htmlImporter := "/p/i.html", content := none } } =
      (none, some ⟨{ name := "href", value := "m.scss" },
        [.replaceOuter "<style>C:$x: 1;</style>"]⟩)) ∧
    (processFileEntry
        (some { inline := some (.bool true), namingCss := none, includeExtensions := none,
                excludeExtensions := none, excludeSelectors := none, keepOriginalPaths := none,
                suppressErrors := none })
        [".js", ".jsx", ".ts", ".tsx"] (fun t => "C:" ++ t) (fun _ => "h2")
        { name := some "/p/x.js", diskText := "if (a</script>b) f();",
          details := { kind := .chunk, attr := some { name := "src", value := "x.js" },
                       hash := "h", originalPath := some "/p/x.js",
                       htmlImporter := "/p/i.html", content := none } } =
      (none, some ⟨{ name := "src", value := "x.js" },
        [.removeAttr "src", .setInner "if (a\\x3C/script>b) f();"]⟩)) ∧
    jsIncludes (escapeScript "a</script>b") "</script>" = false ∧
    escapeScript "ab" = "ab" := by
  refine ⟨?_, ?_, ?_, ?_⟩
  · have h := ((c6_inlining_exclusivity
      (some { inline := some (.bool true), namingCss := none, includeExtensions := none,
              excludeExtensions := none, excludeSelectors := none, keepOriginalPaths := none,
              suppressErrors := none })
      [".js", ".jsx", ".ts", ".tsx"] (fun t => "C:" ++ t) (fun _ => "h2")
      { name := some "/p/m.scss", diskText := "$x: 1;",
        details := { kind := .chunk, attr := some { name := "href", value := "m.scss" },
                     hash := "h", originalPath := some "/p/m.scss",
                     htmlImporter := "/p/i.html", content := none } }
      { name := "href", value := "m.scss" } "/p/m.scss" "v" "s" [] ⟨⟨"", ""⟩, []⟩).1
      rfl rfl (by decide) (by decide)).1
    exact h.trans (by decide)
  · have h := ((c6_inlining_exclusivity
      (some { inline := some (.bool true), namingCss := none, includeExtensions := none,
              excludeExtensions := none, excludeSelectors := none, keepOriginalPaths := none,
              suppressErrors := none })
      [".js", ".jsx", ".ts", ".tsx"] (fun t => "C:" ++ t) (fun _ => "h2")
      { name := some "/p/x.js", diskText := "if (a</script>b) f();",
        details := { kind := .chunk, attr := some { name := "src", value := "x.js" },
                     hash := "h", originalPath := some "/p/x.js",
                     htmlImporter := "/p/i.html", content := none } }
      { name := "src", value := "x.js" } "/p/x.js" "v" "s" [] ⟨⟨"", ""⟩, []⟩).2.1
      rfl rfl (by decide) (by decide) (by decide)).1
    exact h.trans (by decide)
  · exact (c6_inlining_exclusivity none [] id id ⟨none, "", ⟨Kind.asset, none, "", none, "", none⟩⟩
      ⟨"", ""⟩ "" "" "a</script>b" [] ⟨⟨"", ""⟩, []⟩).2.2.2.1
  · exact (c6_inlining_exclusivity none [] id id ⟨none, "", ⟨Kind.asset, none, "", none, "", none⟩⟩
      ⟨"", ""⟩ "" "" "ab" [] ⟨⟨"", ""⟩, []⟩).2.2.2.2 (by decide)

end BunPluginHtml
